import Mathlib

set_option maxHeartbeats 1600000

/-!
Verification development for the Nana dunes indexer.

The definitions below are a shallow embedding of the indexer source:
  * the transition engine of the TypeScript indexer (allocate, processEdicts,
    processMint, processEtching),
  * the protocol-rule helpers of lib/indexer.js (isMintOpen,
    minimumLengthAtHeight, updateUnallocated),
  * the u128 split helpers of lib/utils.ts (convertAmountToParts,
    convertPartsToAmount),
  * the post-schema validity stage of the decoder in lib/dunestone.ts.

JavaScript BigInt values are modelled as Int.  JavaScript objects used as
dictionaries (the unallocated bag, dune_balances, transfers) are modelled as
association lists with object-update semantics: assignment replaces the value
of an existing key in place and appends a fresh key at the end, which is
exactly how property insertion order behaves for JS objects.
-/

namespace Nana

/-- JS BigInt amounts. -/
abbrev Amt := Int

/-- A dune protocol id, the decoded form of the canonical string "block:tx". -/
abbrev DuneId := Nat × Nat

/-- Reading a property of a JS object used as a dictionary: undefined is none. -/
def getAssoc? {κ α : Type} [DecidableEq κ] : List (κ × α) → κ → Option α
  | [], _ => none
  | (k', v') :: rest, k => if k' = k then some v' else getAssoc? rest k

/-- Assigning a property of a JS object used as a dictionary: an existing key
is overwritten in place, a fresh key is appended at the end. -/
def setAssoc {κ α : Type} [DecidableEq κ] : List (κ × α) → κ → α → List (κ × α)
  | [], k, v => [(k, v)]
  | (k', v') :: rest, k, v =>
    if k' = k then (k, v) :: rest else (k', v') :: setAssoc rest k v

/-- The in-memory shape of one pending output built by createNewUtxoBodies:
only the fields the edict engine reads are kept (address_id 2 marks an
OP_RETURN output, dune_balances is the per-dune balance object). -/
structure PendingUtxo where
  address_id : Nat
  dune_balances : List (DuneId × Amt)
deriving DecidableEq, Repr

/-- The mutable state threaded through processEdicts: the unallocated bag U,
the pending outputs, and the transfers object keyed by recipient (the string
key is "burn" for OP_RETURN recipients, otherwise the decimal address id). -/
structure EngineState where
  U : List (DuneId × Amt)
  pendingUtxos : List PendingUtxo
  transfers : List (String × List (DuneId × Amt))
deriving DecidableEq, Repr

/-- The withDefault expression of the allocation primitive: the amount is
replaced by the whole remaining balance when it is zero or exceeds it.  An
absent key follows the JS comparisons against undefined (undefined < amount
is false; a zero amount on an absent key makes the source throw, and call
sites guard that case). -/
def allocGive (s : EngineState) (duneId : DuneId) (amount : Amt) : Amt :=
  match getAssoc? s.U duneId with
  | some u => if u < amount ∨ amount = 0 then u else amount
  | none => amount

/-- The pending output as the allocation primitive rewrites it: its balance
for the given dune grows by the transferred amount. -/
def bumpBal (ut : PendingUtxo) (k : DuneId) (give : Amt) : PendingUtxo :=
  { ut with dune_balances :=
      setAssoc ut.dune_balances k ((getAssoc? ut.dune_balances k).getD 0 + give) }

/-- The allocation primitive of processEdicts (part_003 lines 311-347),
acting on the output at index i of pendingUtxos.  Translation notes: the JS
closure receives the utxo object itself; here it is addressed by its index.
Call sites always supply an index below pendingUtxos.length (the JS code
throws on an undefined utxo), so the none fallback is never exercised by
processEdicts. -/
def allocate (s : EngineState) (i : Nat) (duneId : DuneId) (amount : Amt) :
    EngineState :=
  match s.pendingUtxos[i]? with
  | none => s
  | some ut =>
    let withDefault : Amt := allocGive s duneId amount
    let U := setAssoc s.U duneId ((getAssoc? s.U duneId).getD 0 - withDefault)
    let pendingUtxos := s.pendingUtxos.set i (bumpBal ut duneId withDefault)
    if withDefault = 0 then
      { U := U, pendingUtxos := pendingUtxos, transfers := s.transfers }
    else
      let toAddress := if ut.address_id = 2 then "burn" else toString ut.address_id
      let inner := (getAssoc? s.transfers toAddress).getD []
      let inner := setAssoc inner duneId ((getAssoc? inner duneId).getD 0 + withDefault)
      { U := U, pendingUtxos := pendingUtxos,
        transfers := setAssoc s.transfers toAddress inner }

/-- Indices of the non-OP_RETURN outputs, in order: the index view of the JS
array pendingUtxos.filter(utxo => utxo.address_id !== 2). -/
def nonOpReturnIdxs (pus : List PendingUtxo) : List Nat :=
  (List.range pus.length).filter fun i =>
    match pus[i]? with
    | some ut => ut.address_id != 2
    | none => false

/-- Index of the first element satisfying p, counting from i. -/
def firstIdxWhereAux (p : PendingUtxo → Bool) : Nat → List PendingUtxo → Option Nat
  | _, [] => none
  | i, u :: rest => if p u then some i else firstIdxWhereAux p (i + 1) rest

/-- Index of the first element satisfying p: the index view of Array.find. -/
def firstIdxWhere (p : PendingUtxo → Bool) (pus : List PendingUtxo) : Option Nat :=
  firstIdxWhereAux p 0 pus

/-- Index view of nonOpReturnOutputs[0]. -/
def firstNonOpIdx (pus : List PendingUtxo) : Option Nat :=
  firstIdxWhere (fun u => u.address_id != 2) pus

/-- Index view of pendingUtxos.find(utxo => utxo.address_id === 2). -/
def firstOpReturnIdx (pus : List PendingUtxo) : Option Nat :=
  firstIdxWhere (fun u => u.address_id == 2) pus

/-- The pointer-output selection of processEdicts (part_003 lines 442-457).
JS truthiness: a pointer of 0 (and an absent pointer) takes the
first-non-OP_RETURN branch; an out-of-range pointer falls back through the
nullish coalescing operator. -/
def pointerOutputIdx (pointer : Option Nat) (pus : List PendingUtxo) : Option Nat :=
  let base : Option Nat :=
    match pointer with
    | some p =>
      if p ≠ 0 then (if p < pus.length then some p else firstNonOpIdx pus)
      else firstNonOpIdx pus
    | none => firstNonOpIdx pus
  match base with
  | some i => some i
  | none => firstOpReturnIdx pus

/-- A decoded edict after schema validation: id is the parsed "block:tx"
pair, amount the u128 amount, output the target index. -/
structure Edict where
  id : DuneId
  amount : Amt
  output : Nat
deriving DecidableEq, Repr

/-- One iteration of the edict loop of processEdicts (part_003 lines
381-436).  existsDune is the membership view of the existingDunes map built
from storage; an out-of-range direct output makes the JS code throw inside
allocate, modelled as none. -/
def processOneEdict (existsDune : DuneId → Bool) (s : EngineState) (e : Edict) :
    Option EngineState :=
  if ¬ existsDune e.id then some s
  else
    match getAssoc? s.U e.id with
    | none => some s
    | some u =>
      if u = 0 then some s
      else if e.output = s.pendingUtxos.length then
        let nonOp := nonOpReturnIdxs s.pendingUtxos
        if e.amount = 0 then
          let amountOutputs : Amt := (nonOp.length : Int)
          if amountOutputs > 0 then
            let amount := u.tdiv amountOutputs
            let remainder := u.tmod amountOutputs
            let withRemainder := amount + 1
            some (nonOp.enum.foldl
              (fun st ji =>
                allocate st ji.2 e.id
                  (if (ji.1 : Int) < remainder then withRemainder else amount))
              s)
          else some s
        else
          some (nonOp.foldl (fun st i => allocate st i e.id e.amount) s)
      else if e.output < s.pendingUtxos.length then
        some (allocate s e.output e.id e.amount)
      else none

/-- The edict loop of processEdicts, after rewriting id 0:0 to the current
transaction's dune id. -/
def edictPhase (existsDune : DuneId → Bool) (txDuneId : DuneId)
    (edicts : Option (List Edict)) (s : EngineState) : Option EngineState :=
  let rewritten := (edicts.getD []).map fun e =>
    if e.id = (0, 0) then { e with id := txDuneId } else e
  rewritten.foldlM (processOneEdict existsDune) s

/-- The pointer sweep: Object.entries(UnallocatedDunes) is snapshotted and
every entry is allocated to the pointer output. -/
def sweepTo (s : EngineState) (i : Nat) : EngineState :=
  s.U.foldl (fun st kv => allocate st i kv.1 kv.2) s

/-- processEdicts of part_003 (lines 288-466).  On a cenotaph the whole bag
is recorded as burned and nothing else happens; otherwise the edicts are
processed in order and the residual bag is swept to the pointer output,
throwing (none) when no output exists at all. -/
def processEdicts (existsDune : DuneId → Bool) (txDuneId : DuneId)
    (cenotaph : Bool) (edicts : Option (List Edict)) (pointer : Option Nat)
    (s : EngineState) : Option EngineState :=
  if cenotaph then
    some { s with transfers := setAssoc s.transfers "burn" s.U }
  else
    match edictPhase existsDune txDuneId edicts s with
    | none => none
    | some s1 =>
      match pointerOutputIdx pointer s1.pendingUtxos with
      | some i => some (sweepTo s1 i)
      | none => none

/-- Observation: the balance of dune k on the output at index i. -/
def balAt (s : EngineState) (i : Nat) (k : DuneId) : Amt :=
  match s.pendingUtxos[i]? with
  | some ut => (getAssoc? ut.dune_balances k).getD 0
  | none => 0

/-- Observation: the accumulated transfer total for recipient key a and
dune k. -/
def transfersTot (s : EngineState) (a : String) (k : DuneId) : Amt :=
  (getAssoc? ((getAssoc? s.transfers a).getD []) k).getD 0

/-- The post-schema validity stage of decipher (lib/dunestone.ts lines
174-181): badOutput uses the JS comparison e.output > voutLen - 1, modelled
over Int so that the subtraction cannot truncate. -/
def decipherEdictChecksCenotaph (edicts : List Edict) (voutLen : Nat) : Bool :=
  let badOutput := edicts.any fun e => decide ((e.output : Int) > (voutLen : Int) - 1)
  let badZeroDune := edicts.any fun e => e.id.1 == 0 && e.id.2 != 0
  badOutput || badZeroDune

/-- convertAmountToParts of lib/utils.ts: split a u128 amount into two
signed 64-bit halves (balance_0 low, balance_1 high). -/
def convertAmountToParts (amount : Nat) : Int × Int :=
  let MAX_64_UNSIGNED : Nat := 0xffffffffffffffff
  let MAX_64_SIGNED : Nat := 0x7fffffffffffffff
  let lower64 : Nat := amount &&& MAX_64_UNSIGNED
  let upper64 : Nat := (amount >>> 64) &&& MAX_64_UNSIGNED
  let balance_0 : Int :=
    if lower64 > MAX_64_SIGNED then (lower64 : Int) - ((MAX_64_UNSIGNED : Int) + 1)
    else (lower64 : Int)
  let balance_1 : Int :=
    if upper64 > MAX_64_SIGNED then (upper64 : Int) - ((MAX_64_UNSIGNED : Int) + 1)
    else (upper64 : Int)
  (balance_0, balance_1)

/-- convertPartsToAmount of lib/utils.ts: recombine the two signed 64-bit
halves.  The store only ever hands back halves in the signed 64-bit range,
for which the negativity fix makes both operands of the final shift-or
nonnegative, so the BigInt result is modelled as a Nat. -/
def convertPartsToAmount (balance_0 balance_1 : Int) : Nat :=
  let MAX_64_UNSIGNED : Int := 0xffffffffffffffff
  let b0 := if balance_0 < 0 then balance_0 + (MAX_64_UNSIGNED + 1) else balance_0
  let b1 := if balance_1 < 0 then balance_1 + (MAX_64_UNSIGNED + 1) else balance_1
  (b1.toNat <<< 64) ||| b0.toNat

/-- Constants of lib/constants. -/
def GENESIS_BLOCK : Int := 840000

/-- Blocks between unlocks of one more character of name length. -/
def UNLOCK_INTERVAL : Int := 17500

/-- Minimum name length at the genesis block. -/
def INITIAL_AVAILABLE : Int := 13

/-- minimumLengthAtHeight of lib/indexer.js lines 700-704.  Math.floor on
the real quotient equals flooring integer division. -/
def minimumLengthAtHeight (block : Int) : Int :=
  INITIAL_AVAILABLE - (block - GENESIS_BLOCK).fdiv UNLOCK_INTERVAL

/-- A Dune row as kept in the block cache.  Numeric columns that the store
persists as strings are modelled by their numeric value; mints and the
optional cap and amounts are BigInt in the in-memory rows the engine
creates. -/
structure DuneRow where
  dune_protocol_id : DuneId
  name : String
  symbol : String
  decimals : Nat
  premine : Amt
  mints : Amt
  mint_cap : Option Amt
  mint_amount : Option Amt
  mint_start : Option Int
  mint_end : Option Int
  mint_offset_start : Option Int
  mint_offset_end : Option Int
  price_amount : Option Amt
  price_pay_to : Option String
  turbo : Bool
  unmintable : Bool
  burnt_amount : Amt
deriving DecidableEq, Repr

/-- The cap refusal inside isMintOpen: if (mint_cap) { if (total_mints >
BigInt(mint_cap)) return false }.  A null cap and a BigInt cap of 0 are both
falsy in JS, so neither triggers the comparison. -/
def capRefused : Option Amt → Amt → Bool
  | none, _ => false
  | some mint_cap, total_mints =>
    if mint_cap = 0 then false else decide (total_mints > mint_cap)

/-- The start and end window comparison closing isMintOpen (lines 869-906 of
lib/indexer.js), over the already-converted offset block heights.  Option
Int encodes the JS number line as the engine exercises it: none stands for
NaN in start (a null mint_start surviving the creation-block filter becomes
parseInt(null) = NaN, which the nullish coalescing operator does not
replace) and for NaN or Infinity in end; every comparison against NaN is
false, and end = Infinity also makes end < block false, so the two collapse
to the same observable value. -/
def mintWindow (block : Int) (d : DuneRow)
    (creationBlock mint_offset_start mint_offset_end : Int) : Bool :=
  let s1 : List (Option Int) :=
    match d.mint_start with
    | none => [none]
    | some v => if v = creationBlock then [] else [some v]
  let s2 : List (Option Int) :=
    if mint_offset_start = creationBlock then [] else [some mint_offset_start]
  let starts := s1 ++ s2
  let start : Option Int :=
    if starts.length = 2 then
      some (max (d.mint_start.getD creationBlock) mint_offset_start)
    else
      match starts with
      | [] => some creationBlock
      | x :: _ => x
  let e1 : List (Option Int) :=
    match d.mint_end with
    | none => [none]
    | some v => if v = creationBlock then [] else [some v]
  let e2 : List (Option Int) :=
    if mint_offset_end = creationBlock then [] else [some mint_offset_end]
  let ends := e1 ++ e2
  let endv : Option Int :=
    if ends.length = 2 then
      some (min (d.mint_end.getD mint_offset_end) mint_offset_end)
    else
      match ends with
      | [] => none
      | x :: _ => x
  let startBad := match start with | some s => decide (s > block) | none => false
  let endBad := match endv with | some e => decide (e < block) | none => false
  !(startBad || endBad)

/-- isMintOpen of lib/indexer.js lines 806-907 (the four-argument version
used by the TypeScript indexer): unmintable and same-point checks, the
genesis creation-block override, offset conversion, the cap refusal, and
the window comparison. -/
def isMintOpen (block txIndex : Int) (d : DuneRow) (mint_offset : Bool) : Bool :=
  if d.unmintable then false
  else if block = (d.dune_protocol_id.1 : Int) ∧ (d.dune_protocol_id.2 : Int) = txIndex
    then false
  else
    let creationBlock : Int :=
      if d.dune_protocol_id = (1, 0) then GENESIS_BLOCK else (d.dune_protocol_id.1 : Int)
    let mint_offset_start := d.mint_offset_start.getD 0 + creationBlock
    let mint_offset_end := d.mint_offset_end.getD 0 + creationBlock
    let total_mints := d.mints + (if mint_offset then 1 else 0)
    if capRefused d.mint_cap total_mints then false
    else mintWindow block d creationBlock mint_offset_start mint_offset_end

/-- An Event row; amount is optional because the mint event records the raw
mint_amount column, which is null for dunes etched without terms. -/
structure EventRow where
  type : Nat
  block : Int
  dune_id : DuneId
  amount : Option Amt
  from_address_id : Nat
  to_address_id : Nat
deriving DecidableEq, Repr

/-- The slice of the block cache the mint and etch steps touch. -/
structure Storage where
  dunes : List DuneRow
  events : List EventRow
deriving DecidableEq, Repr

/-- findOne on the Dune table by protocol id (the cache holds at most one
row per key; find? returns the first). -/
def findDune (stor : Storage) (id : DuneId) : Option DuneRow :=
  stor.dunes.find? fun d => d.dune_protocol_id == id

/-- updateAttribute on the mints column of the Dune row keyed by protocol
id. -/
def updateDuneMints : List DuneRow → DuneId → Amt → List DuneRow
  | [], _, _ => []
  | d :: rest, id, newMints =>
    if d.dune_protocol_id = id then { d with mints := newMints } :: rest
    else d :: updateDuneMints rest id newMints

/-- A transaction output as the mint step reads it.  The source converts the
float BTC value with BigInt(Math.floor(v.value * 1e8)); the satoshi value is
modelled directly. -/
structure Vout where
  address : Option String
  value_sats : Amt
deriving DecidableEq, Repr

/-- Flex-mode price terms of an etching. -/
structure PriceTerms where
  amount : Amt
  pay_to : String
deriving DecidableEq, Repr

/-- Mint terms of an etching (schema of lib/dunestone.ts). -/
structure Terms where
  amount : Amt
  cap : Option Amt
  height : Option Int × Option Int
  offset : Option Int × Option Int
  price : Option PriceTerms
deriving DecidableEq, Repr

/-- An etching after schema validation. -/
structure Etching where
  divisibility : Nat
  premine : Amt
  dune : String
  symbol : String
  terms : Option Terms
  turbo : Bool
deriving DecidableEq, Repr

/-- A decoded dunestone as the engine receives it. -/
structure Dunestone where
  edicts : Option (List Edict)
  etching : Option Etching
  mint : Option DuneId
  pointer : Option Nat
  cenotaph : Bool
deriving DecidableEq, Repr

/-- The per-transaction context processMint and processEtching read.
senderId is the id of the resolved sender Address row (the source looks it
up in the cache and throws when it is missing). -/
structure TxCtx where
  block : Nat
  txIndex : Nat
  vout : List Vout
  senderId : Nat
  dunestone : Dunestone
deriving DecidableEq, Repr

/-- Modelled from the spec: isPriceTermsMet is exported by duneutils, which
is not among the provided sources.  Spec section 4.3: in flex mode, when
price_pay_to and price_amount are set, the transaction must have at least
one vout paying price_pay_to, otherwise the mint is rejected; dunes without
price terms pass. -/
def isPriceTermsMet (d : DuneRow) (tx : TxCtx) : Bool :=
  match d.price_pay_to, d.price_amount with
  | some pay_to, some _ => tx.vout.any fun v => v.address == some pay_to
  | _, _ => true

/-- updateUnallocated of lib/indexer.js lines 792-804. -/
def updateUnallocated (prev : List (DuneId × Amt)) (dune_id : DuneId)
    (amount : Amt) : List (DuneId × Amt) :=
  setAssoc prev dune_id ((getAssoc? prev dune_id).getD 0 + amount)

/-- Total satoshis the transaction pays to a given address: the
filter-map-reduce over vouts inside the flex branch of processMint. -/
def totalSatsTo (vout : List Vout) (payTo : String) : Amt :=
  ((vout.filter fun v => v.address == some payTo).map fun v => v.value_sats).foldl
    (· + ·) 0

/-- processMint of part_003 lines 468-556.  The explicit throws of the flex
branch (missing pay_to, zero price) are modelled as none. -/
def processMint (U : List (DuneId × Amt)) (tx : TxCtx) (stor : Storage) :
    Option (List (DuneId × Amt) × Storage) :=
  match tx.dunestone.mint with
  | none => some (U, stor)
  | some mint =>
    match findDune stor mint with
    | none => some (U, stor)
    | some duneToMint =>
      if ¬ isPriceTermsMet duneToMint tx then some (U, stor)
      else if isMintOpen (tx.block : Int) (tx.txIndex : Int) duneToMint true then
        if tx.dunestone.cenotaph then some (U, stor)
        else
          let mintAmount0 : Amt := duneToMint.mint_amount.getD 0
          let isFlex := duneToMint.price_amount.isSome
          let mintAmountOrThrow : Option Amt :=
            if isFlex then
              match duneToMint.price_pay_to, duneToMint.price_amount with
              | none, _ => none
              | _, none => none
              | some payTo, some priceAmount =>
                if priceAmount = 0 then none
                else some ((totalSatsTo tx.vout payTo).tdiv priceAmount)
            else some mintAmount0
          match mintAmountOrThrow with
          | none => none
          | some mintAmount =>
            if mintAmount ≤ 0 then some (U, stor)
            else
              let ev : EventRow :=
                { type := 1, block := (tx.block : Int),
                  dune_id := duneToMint.dune_protocol_id,
                  amount := duneToMint.mint_amount,
                  from_address_id := tx.senderId, to_address_id := 2 }
              let newMints := duneToMint.mints + 1
              let stor' : Storage :=
                { dunes := updateDuneMints stor.dunes duneToMint.dune_protocol_id newMints,
                  events := ev :: stor.events }
              some (updateUnallocated U duneToMint.dune_protocol_id mintAmount, stor')
      else some (U, stor)

/-- processEtching of part_003 lines 558-709.  The JS loose comparison
terms?.amount == 0n holds only for a present amount of 0, while the
truthiness test !etching.terms?.amount also holds when terms are absent; the
two are kept apart below.  The isSafeChar hex probe rejects exactly a symbol
whose UTF-8 bytes are all zero (including the empty string). -/
def processEtching (U : List (DuneId × Amt)) (tx : TxCtx) (stor : Storage)
    (isGenesis : Bool) : List (DuneId × Amt) × Storage :=
  match tx.dunestone.etching with
  | none => (U, stor)
  | some etching =>
    if (findDune stor (tx.block, tx.txIndex)).isSome then (U, stor)
    else
      let duneName := etching.dune
      if (stor.dunes.find? fun d => d.name == duneName).isSome then (U, stor)
      else
        let isFlex : Bool :=
          match etching.terms with
          | some t => t.amount == 0 && t.price.isSome
          | none => false
        let hasMintcap : Bool :=
          match etching.terms with
          | some t => (match t.cap with | some c => c != 0 | none => false)
          | none => false
        let amountLooseEqZero : Bool :=
          match etching.terms with
          | some t => t.amount == 0
          | none => false
        let amountFalsy : Bool :=
          match etching.terms with
          | some t => t.amount == 0
          | none => true
        if !isFlex && amountLooseEqZero then (U, stor)
        else if isFlex && hasMintcap then (U, stor)
        else
          let symbol :=
            if etching.symbol.toList.all (fun c => c == Char.ofNat 0) then "¤"
            else etching.symbol
          let newDune : DuneRow :=
            { dune_protocol_id := if !isGenesis then (tx.block, tx.txIndex) else (1, 0),
              name := duneName,
              symbol := symbol,
              decimals := etching.divisibility,
              premine := etching.premine,
              mints := 0,
              mint_cap := etching.terms.bind (fun t => t.cap),
              mint_amount := etching.terms.map (fun t => t.amount),
              mint_start := etching.terms.bind (fun t => t.height.1),
              mint_end := etching.terms.bind (fun t => t.height.2),
              mint_offset_start := etching.terms.bind (fun t => t.offset.1),
              mint_offset_end := etching.terms.bind (fun t => t.offset.2),
              price_amount := (etching.terms.bind (fun t => t.price)).map (fun p => p.amount),
              price_pay_to := (etching.terms.bind (fun t => t.price)).map (fun p => p.pay_to),
              turbo := etching.turbo,
              unmintable := tx.dunestone.cenotaph || (amountFalsy && !isFlex),
              burnt_amount := 0 }
          let ev : EventRow :=
            { type := 0, block := (tx.block : Int),
              dune_id := newDune.dune_protocol_id,
              amount := some etching.premine,
              from_address_id := tx.senderId, to_address_id := 2 }
          let stor' : Storage :=
            { dunes := stor.dunes ++ [newDune], events := ev :: stor.events }
          if tx.dunestone.cenotaph then (U, stor')
          else (updateUnallocated U newDune.dune_protocol_id newDune.premine, stor')

/-- Sum of the values an entry list carries for one key; on a list with
nodup keys this is the value stored under the key (or zero). -/
def entrySum (es : List (DuneId × Amt)) (k : DuneId) : Amt :=
  (es.map fun kv => if kv.1 = k then kv.2 else 0).sum

/-- A representative dune row used by the concrete instances below. -/
def baseDune : DuneRow :=
  { dune_protocol_id := (840000, 5), name := "AAA", symbol := "x", decimals := 0,
    premine := 0, mints := 0, mint_cap := none, mint_amount := some 10,
    mint_start := none, mint_end := none, mint_offset_start := none,
    mint_offset_end := none, price_amount := none, price_pay_to := none,
    turbo := true, unmintable := false, burnt_amount := 0 }

/-- A non-flex dune etched with terms cap 0: the cap column is set, yet
BigInt 0 is falsy so isMintOpen never consults it. -/
def c1ZeroCapDune : DuneRow := { baseDune with mint_cap := some 0 }

/-- A capped dune that has already minted up to its cap. -/
def c1WitDune : DuneRow := { baseDune with mint_cap := some 5, mints := 5 }

/-- Input state for exercising the pointer sweep: one input dune with 7
unallocated units, an OP_RETURN output and one ordinary output. -/
def c2S0 : EngineState :=
  { U := [((840000, 5), 7)], pendingUtxos := [⟨2, []⟩, ⟨5, []⟩], transfers := [] }

/-- The state processEdicts produces from c2S0 with no edicts and no
pointer: the bag is empty and the 7 units sit on the ordinary output. -/
def c2S1 : EngineState :=
  { U := [((840000, 5), 0)],
    pendingUtxos := [⟨2, []⟩, ⟨5, [((840000, 5), 7)]⟩],
    transfers := [("5", [((840000, 5), 7)])] }

/-- State for exercising allocate directly: 7 unallocated units and a
single OP_RETURN output (address id 2, the burn sink). -/
def c4S0 : EngineState :=
  { U := [((840000, 5), 7)], pendingUtxos := [⟨2, []⟩], transfers := [] }

/-- State for the even-split edict: 11 unallocated units, two ordinary
outputs and one OP_RETURN. -/
def c5S0 : EngineState :=
  { U := [((840000, 5), 11)],
    pendingUtxos := [⟨5, []⟩, ⟨6, []⟩, ⟨2, []⟩], transfers := [] }

/-- The split edict of the claim: amount 0, output = vout count = 3. -/
def c5Edict : Edict := { id := (840000, 5), amount := 0, output := 3 }

/-- An open mintable dune for the cenotaph-mint scenario. -/
def c6Dune : DuneRow := baseDune

/-- A cenotaph transaction minting c6Dune. -/
def c6Tx : TxCtx :=
  { block := 840001, txIndex := 0, vout := [], senderId := 7,
    dunestone := { edicts := none, etching := none, mint := some (840000, 5),
                   pointer := none, cenotaph := true } }

/-- The same mint transaction without the cenotaph flag. -/
def c6TxNC : TxCtx :=
  { c6Tx with dunestone := { c6Tx.dunestone with cenotaph := false } }

/-- An etching of the two-character name AB at the genesis height, where
the minimum allowed length is 13. -/
def c7Tx : TxCtx :=
  { block := 840000, txIndex := 1, vout := [], senderId := 7,
    dunestone :=
      { edicts := none,
        etching := some { divisibility := 0, premine := 1000, dune := "AB",
                          symbol := "x", terms := none, turbo := true },
        mint := none, pointer := none, cenotaph := false } }

/-- Sweep scenario with an OP_RETURN at index 0 and an ordinary output at
index 1, targeted by pointer 0. -/
def c8S0 : EngineState :=
  { U := [((840000, 5), 7)], pendingUtxos := [⟨2, []⟩, ⟨5, []⟩], transfers := [] }

/-- Pending outputs for the amended pointer-order witness. -/
def c8WPus : List PendingUtxo := [⟨2, []⟩, ⟨5, []⟩]

/-- A flex-mode dune: unit price 1000 sats paid to A, stored mint_amount 0. -/
def c10Dune : DuneRow :=
  { baseDune with mint_amount := some 0, price_amount := some 1000,
                  price_pay_to := some "A" }

/-- A mint of the flex dune paying 4500 sats to A. -/
def c10Tx : TxCtx :=
  { block := 840001, txIndex := 0, vout := [⟨some "A", 4500⟩], senderId := 7,
    dunestone := { edicts := none, etching := none, mint := some (840000, 5),
                   pointer := none, cenotaph := false } }

/-- Storage holding just the flex dune. -/
def c10Stor : Storage := { dunes := [c10Dune], events := [] }

/-! ### Association-list lemmas -/

theorem getAssoc?_setAssoc_self {κ α : Type} [DecidableEq κ]
    (l : List (κ × α)) (k : κ) (v : α) :
    getAssoc? (setAssoc l k v) k = some v := by
  induction l with
  | nil => simp [setAssoc, getAssoc?]
  | cons kv rest ih =>
    obtain ⟨k', v'⟩ := kv
    by_cases h : k' = k
    · simp [setAssoc, getAssoc?, h]
    · simp [setAssoc, getAssoc?, h, ih]

theorem getAssoc?_setAssoc_ne {κ α : Type} [DecidableEq κ]
    (l : List (κ × α)) (k k' : κ) (v : α) (hne : k' ≠ k) :
    getAssoc? (setAssoc l k v) k' = getAssoc? l k' := by
  induction l with
  | nil => simp [setAssoc, getAssoc?, hne, Ne.symm hne]
  | cons kv rest ih =>
    obtain ⟨k₀, v₀⟩ := kv
    by_cases h : k₀ = k
    · subst h
      simp [setAssoc, getAssoc?, hne, Ne.symm hne]
    · by_cases h' : k₀ = k'
      · subst h'
        simp [setAssoc, getAssoc?, h, hne]
      · simp [setAssoc, getAssoc?, h, h', ih]

theorem map_fst_setAssoc_of_mem {κ α : Type} [DecidableEq κ]
    {l : List (κ × α)} {k : κ} (v : α) (h : k ∈ l.map Prod.fst) :
    (setAssoc l k v).map Prod.fst = l.map Prod.fst := by
  induction l with
  | nil => simp at h
  | cons kv rest ih =>
    obtain ⟨k₀, v₀⟩ := kv
    by_cases hk : k₀ = k
    · simp [setAssoc, hk]
    · have : k ∈ rest.map Prod.fst := by
        simpa [hk, Ne.symm hk] using h
      simp [setAssoc, hk, ih this]

theorem map_fst_setAssoc_of_not_mem {κ α : Type} [DecidableEq κ]
    {l : List (κ × α)} {k : κ} (v : α) (h : k ∉ l.map Prod.fst) :
    (setAssoc l k v).map Prod.fst = l.map Prod.fst ++ [k] := by
  induction l with
  | nil => simp [setAssoc]
  | cons kv rest ih =>
    obtain ⟨k₀, v₀⟩ := kv
    by_cases hk : k₀ = k
    · exact absurd (by simp [hk]) h
    · have : k ∉ rest.map Prod.fst := fun hm => h (by simp [hm])
      simp [setAssoc, hk, ih this]

theorem nodup_fst_setAssoc {κ α : Type} [DecidableEq κ]
    {l : List (κ × α)} (k : κ) (v : α) (h : (l.map Prod.fst).Nodup) :
    ((setAssoc l k v).map Prod.fst).Nodup := by
  by_cases hm : k ∈ l.map Prod.fst
  · rw [map_fst_setAssoc_of_mem v hm]; exact h
  · rw [map_fst_setAssoc_of_not_mem v hm]
    refine List.nodup_append.mpr ⟨h, List.nodup_singleton k, ?_⟩
    intro a ha hak
    rw [List.mem_singleton] at hak
    exact hm (hak ▸ ha)

theorem getAssoc?_append_middle {κ α : Type} [DecidableEq κ]
    {pre rest : List (κ × α)} {k : κ} {v : α} (h : k ∉ pre.map Prod.fst) :
    getAssoc? (pre ++ (k, v) :: rest) k = some v := by
  induction pre with
  | nil => simp [getAssoc?]
  | cons kv pre ih =>
    obtain ⟨k₀, v₀⟩ := kv
    have hk : k₀ ≠ k := fun he => h (by simp [he])
    have : k ∉ pre.map Prod.fst := fun hm => h (by simp [hm])
    simp [getAssoc?, hk, ih this]

theorem setAssoc_append_middle {κ α : Type} [DecidableEq κ]
    {pre rest : List (κ × α)} {k : κ} {v : α} (x : α) (h : k ∉ pre.map Prod.fst) :
    setAssoc (pre ++ (k, v) :: rest) k x = pre ++ (k, x) :: rest := by
  induction pre with
  | nil => simp [setAssoc]
  | cons kv pre ih =>
    obtain ⟨k₀, v₀⟩ := kv
    have hk : k₀ ≠ k := fun he => h (by simp [he])
    have : k ∉ pre.map Prod.fst := fun hm => h (by simp [hm])
    simp [setAssoc, hk, ih this]

/-! ### allocate lemmas -/

theorem allocate_of_oob {s : EngineState} {i : Nat}
    (h : s.pendingUtxos[i]? = none) (k : DuneId) (a : Amt) :
    allocate s i k a = s := by
  unfold allocate
  rw [h]

theorem allocGive_self {s : EngineState} {k : DuneId} {v : Amt}
    (hk : getAssoc? s.U k = some v) : allocGive s k v = v := by
  unfold allocGive
  rw [hk]
  exact ite_self v

theorem allocate_U {s : EngineState} {i : Nat} {ut : PendingUtxo}
    (hut : s.pendingUtxos[i]? = some ut) (k : DuneId) (a : Amt) :
    (allocate s i k a).U
      = setAssoc s.U k ((getAssoc? s.U k).getD 0 - allocGive s k a) := by
  unfold allocate
  split
  · next heq =>
    rw [hut] at heq
    exact Option.noConfusion heq
  · next ut2 heq =>
    rw [hut] at heq
    injection heq with h2
    subst h2
    simp only []
    by_cases h0 : allocGive s k a = 0
    · rw [if_pos h0]
    · rw [if_neg h0]

theorem allocate_pendingUtxos {s : EngineState} {i : Nat} {ut : PendingUtxo}
    (hut : s.pendingUtxos[i]? = some ut) (k : DuneId) (a : Amt) :
    (allocate s i k a).pendingUtxos
      = s.pendingUtxos.set i (bumpBal ut k (allocGive s k a)) := by
  unfold allocate
  split
  · next heq =>
    rw [hut] at heq
    exact Option.noConfusion heq
  · next ut2 heq =>
    rw [hut] at heq
    injection heq with h2
    subst h2
    simp only []
    by_cases h0 : allocGive s k a = 0
    · rw [if_pos h0]
    · rw [if_neg h0]

theorem allocate_length (s : EngineState) (i : Nat) (k : DuneId) (a : Amt) :
    (allocate s i k a).pendingUtxos.length = s.pendingUtxos.length := by
  cases hut : s.pendingUtxos[i]? with
  | none => rw [allocate_of_oob hut]
  | some ut => rw [allocate_pendingUtxos hut]; exact s.pendingUtxos.length_set i _

theorem allocate_getElem?_ne {s : EngineState} {i j : Nat} (hne : j ≠ i)
    (k : DuneId) (a : Amt) :
    (allocate s i k a).pendingUtxos[j]? = s.pendingUtxos[j]? := by
  cases hut : s.pendingUtxos[i]? with
  | none => rw [allocate_of_oob hut]
  | some ut =>
    rw [allocate_pendingUtxos hut]
    exact List.getElem?_set_ne (Ne.symm hne)

theorem allocate_balAt_self {s : EngineState} {i : Nat} {ut : PendingUtxo}
    (hut : s.pendingUtxos[i]? = some ut) (k : DuneId) (a : Amt) :
    balAt (allocate s i k a) i k = balAt s i k + allocGive s k a := by
  have hi : i < s.pendingUtxos.length := by
    by_contra hle
    rw [List.getElem?_eq_none (Nat.le_of_not_lt hle)] at hut
    exact Option.noConfusion hut
  unfold balAt
  rw [allocate_pendingUtxos hut, List.getElem?_set_self hi, hut]
  simp [bumpBal, getAssoc?_setAssoc_self]

theorem allocate_balAt_ne_key {s : EngineState} {i j : Nat} {k k' : DuneId}
    (hne : k' ≠ k) (a : Amt) :
    balAt (allocate s i k a) j k' = balAt s j k' := by
  cases hut : s.pendingUtxos[i]? with
  | none => rw [allocate_of_oob hut]
  | some ut =>
    unfold balAt
    rw [allocate_pendingUtxos hut]
    by_cases hj : j = i
    · subst hj
      have hi : j < s.pendingUtxos.length := by
        by_contra hle
        rw [List.getElem?_eq_none (Nat.le_of_not_lt hle)] at hut
        exact Option.noConfusion hut
      rw [List.getElem?_set_self hi, hut]
      simp [bumpBal, getAssoc?_setAssoc_ne _ _ _ _ hne]
    · rw [List.getElem?_set_ne (Ne.symm hj)]

theorem allocate_U_nodup {s : EngineState} (i : Nat) (k : DuneId) (a : Amt)
    (h : (s.U.map Prod.fst).Nodup) :
    ((allocate s i k a).U.map Prod.fst).Nodup := by
  cases hut : s.pendingUtxos[i]? with
  | none => rw [allocate_of_oob hut]; exact h
  | some ut => rw [allocate_U hut]; exact nodup_fst_setAssoc _ _ h

theorem allocate_transfers {s : EngineState} {i : Nat} {ut : PendingUtxo}
    (hut : s.pendingUtxos[i]? = some ut) (k : DuneId) (a : Amt) :
    (allocate s i k a).transfers
      = if allocGive s k a = 0 then s.transfers
        else
          (let toAddress := if ut.address_id = 2 then "burn" else toString ut.address_id
           let inner := (getAssoc? s.transfers toAddress).getD []
           setAssoc s.transfers toAddress
             (setAssoc inner k ((getAssoc? inner k).getD 0 + allocGive s k a))) := by
  unfold allocate
  split
  · next heq =>
    rw [hut] at heq
    exact Option.noConfusion heq
  · next ut2 heq =>
    rw [hut] at heq
    injection heq with h2
    subst h2
    simp only []
    by_cases h0 : allocGive s k a = 0
    · simp only [if_pos h0]
    · simp only [if_neg h0]

theorem allocate_transfersTot {s : EngineState} {i : Nat} {ut : PendingUtxo}
    (hut : s.pendingUtxos[i]? = some ut) (k : DuneId) (a : Amt) :
    transfersTot (allocate s i k a)
        (if ut.address_id = 2 then "burn" else toString ut.address_id) k
      = transfersTot s (if ut.address_id = 2 then "burn" else toString ut.address_id) k
          + allocGive s k a := by
  rw [transfersTot, transfersTot, allocate_transfers hut]
  split
  · next h0 => rw [h0, Int.add_zero]
  · simp [getAssoc?_setAssoc_self]

/-! ### Sweep lemmas -/

theorem entrySum_cons (kv : DuneId × Amt) (es : List (DuneId × Amt)) (k : DuneId) :
    entrySum (kv :: es) k = (if kv.1 = k then kv.2 else 0) + entrySum es k := by
  simp [entrySum]

theorem entrySum_eq_zero_of_not_mem {es : List (DuneId × Amt)} {k : DuneId}
    (h : k ∉ es.map Prod.fst) : entrySum es k = 0 := by
  induction es with
  | nil => rfl
  | cons kv rest ih =>
    have h1 : kv.1 ≠ k := fun he => h (by simp [he])
    have h2 : k ∉ rest.map Prod.fst := fun hm => h (by simp [hm])
    simp [entrySum_cons, h1, ih h2]

theorem entrySum_eq_of_nodup {es : List (DuneId × Amt)} {k : DuneId} {v : Amt}
    (hnd : (es.map Prod.fst).Nodup) (hmem : (k, v) ∈ es) : entrySum es k = v := by
  induction es with
  | nil => simp at hmem
  | cons kv rest ih =>
    rw [List.mem_cons] at hmem
    rcases hmem with hm | hm
    · have hk : kv.1 = k := by rw [← hm]
      have hnotin : k ∉ rest.map Prod.fst := by
        rw [List.map_cons, List.nodup_cons] at hnd
        exact hk ▸ hnd.1
      rw [entrySum_cons, if_pos hk, entrySum_eq_zero_of_not_mem hnotin, ← hm,
        Int.add_zero]
    · have hk : kv.1 ≠ k := by
        rw [List.map_cons, List.nodup_cons] at hnd
        intro he
        exact hnd.1 (he ▸ List.mem_map_of_mem Prod.fst hm)
      rw [entrySum_cons, if_neg hk,
        ih (by rw [List.map_cons, List.nodup_cons] at hnd; exact hnd.2) hm,
        Int.zero_add]

theorem sweepAux (i : Nat) :
    ∀ (es pre : List (DuneId × Amt)) (s : EngineState),
      i < s.pendingUtxos.length →
      s.U = pre ++ es →
      ((pre ++ es).map Prod.fst).Nodup →
      ((es.foldl (fun st kv => allocate st i kv.1 kv.2) s).U
          = pre ++ es.map (fun kv => (kv.1, 0)))
        ∧ (es.foldl (fun st kv => allocate st i kv.1 kv.2) s).pendingUtxos.length
            = s.pendingUtxos.length
        ∧ (∀ j, j ≠ i →
            (es.foldl (fun st kv => allocate st i kv.1 kv.2) s).pendingUtxos[j]?
              = s.pendingUtxos[j]?)
        ∧ (∀ k, balAt (es.foldl (fun st kv => allocate st i kv.1 kv.2) s) i k
              = balAt s i k + entrySum es k) := by
  intro es
  induction es with
  | nil =>
    intro pre s hi hU hnd
    refine ⟨?_, rfl, fun j _ => rfl, fun k => ?_⟩
    · simpa using hU
    · simp [entrySum]
  | cons kv rest ih =>
    intro pre s hi hU hnd
    obtain ⟨k, v⟩ := kv
    have hkpre : k ∉ pre.map Prod.fst := by
      intro hmem
      have hnd' := hnd
      rw [List.map_append] at hnd'
      exact List.disjoint_of_nodup_append hnd' hmem (by simp)
    have hsk : getAssoc? s.U k = some v := by
      rw [hU]
      exact getAssoc?_append_middle hkpre
    obtain ⟨ut, hut⟩ : ∃ ut, s.pendingUtxos[i]? = some ut :=
      ⟨s.pendingUtxos[i], List.getElem?_eq_getElem hi⟩
    have hgive : allocGive s k v = v := allocGive_self hsk
    have hU1 : (allocate s i k v).U = pre ++ (k, 0) :: rest := by
      rw [allocate_U hut, hsk, hgive, Option.getD_some, sub_self, hU]
      exact setAssoc_append_middle 0 hkpre
    have hi1 : i < (allocate s i k v).pendingUtxos.length := by
      rw [allocate_length]
      exact hi
    have hnd1 : (((pre ++ [(k, 0)]) ++ rest).map Prod.fst).Nodup := by
      have hkeys : ((pre ++ [(k, 0)]) ++ rest).map Prod.fst
          = (pre ++ (k, v) :: rest).map Prod.fst := by
        simp
      rw [hkeys]
      exact hnd
    obtain ⟨ihU, ihlen, ihne, ihbal⟩ :=
      ih (pre ++ [(k, 0)]) (allocate s i k v) hi1 (by rw [hU1]; simp) hnd1
    rw [List.foldl_cons]
    refine ⟨?_, ?_, ?_, ?_⟩
    · rw [ihU]
      simp
    · rw [ihlen, allocate_length]
    · intro j hj
      rw [ihne j hj, allocate_getElem?_ne hj]
    · intro k''
      rw [ihbal k'', entrySum_cons]
      by_cases hk : k'' = k
      · subst hk
        rw [allocate_balAt_self hut, hgive, if_pos rfl]
        ring
      · rw [allocate_balAt_ne_key hk, if_neg (fun he => hk he.symm)]
        ring

/-- Specification of the pointer sweep acting on a state with nodup bag
keys: the bag is zeroed, each carried amount lands on the target output, and
all other outputs are untouched. -/
theorem sweepTo_spec {s : EngineState} {i : Nat} (hi : i < s.pendingUtxos.length)
    (hnd : (s.U.map Prod.fst).Nodup) :
    (sweepTo s i).U = s.U.map (fun kv => (kv.1, 0))
      ∧ (∀ k v, (k, v) ∈ s.U → balAt (sweepTo s i) i k = balAt s i k + v)
      ∧ (∀ j, j ≠ i → (sweepTo s i).pendingUtxos[j]? = s.pendingUtxos[j]?) := by
  unfold sweepTo
  obtain ⟨hU, hlen, hne, hbal⟩ := sweepAux i s.U [] s hi rfl (by simpa using hnd)
  refine ⟨by simpa using hU, ?_, hne⟩
  intro k v hm
  rw [hbal k, entrySum_eq_of_nodup hnd hm]

/-! ### Structural preservation lemmas -/

theorem foldl_preserves {σ β : Type} (f : σ → β → σ) (P : σ → Prop)
    (hstep : ∀ s b, P s → P (f s b)) :
    ∀ (l : List β) (s : σ), P s → P (l.foldl f s) := by
  intro l
  induction l with
  | nil => intro s h; simpa using h
  | cons b l ih =>
    intro s h
    rw [List.foldl_cons]
    exact ih _ (hstep _ _ h)

theorem foldlM_option_preserves {σ β : Type} (f : σ → β → Option σ) (P : σ → Prop)
    (hstep : ∀ s b s', f s b = some s' → P s → P s') :
    ∀ (l : List β) (s s' : σ), l.foldlM f s = some s' → P s → P s' := by
  intro l
  induction l with
  | nil =>
    intro s s' h hP
    rw [List.foldlM_nil] at h
    injection h with h
    exact h ▸ hP
  | cons b l ih =>
    intro s s' h hP
    rw [List.foldlM_cons] at h
    rcases Option.bind_eq_some.mp h with ⟨s1, h1, h2⟩
    exact ih s1 s' h2 (hstep s b s1 h1 hP)

theorem processOneEdict_nodup {ex : DuneId → Bool} {s s' : EngineState} {e : Edict}
    (h : processOneEdict ex s e = some s')
    (hnd : (s.U.map Prod.fst).Nodup) : (s'.U.map Prod.fst).Nodup := by
  have hfold : ∀ (l : List (Nat × Nat)) (g : Nat × Nat → Amt) (s0 : EngineState),
      (s0.U.map Prod.fst).Nodup →
      (((l.foldl (fun st ji => allocate st ji.2 e.id (g ji)) s0)).U.map Prod.fst).Nodup :=
    fun l g s0 h0 =>
      foldl_preserves _ (fun st => (st.U.map Prod.fst).Nodup)
        (fun st b hb => allocate_U_nodup _ _ _ hb) l s0 h0
  have hfoldPlain : ∀ (l : List Nat) (a : Amt) (s0 : EngineState),
      (s0.U.map Prod.fst).Nodup →
      (((l.foldl (fun st j => allocate st j e.id a) s0)).U.map Prod.fst).Nodup :=
    fun l a s0 h0 =>
      foldl_preserves _ (fun st => (st.U.map Prod.fst).Nodup)
        (fun st b hb => allocate_U_nodup _ _ _ hb) l s0 h0
  unfold processOneEdict at h
  simp only [] at h
  split at h
  · injection h with h
    exact h ▸ hnd
  · split at h
    · injection h with h
      exact h ▸ hnd
    · split at h
      · injection h with h
        exact h ▸ hnd
      · split at h
        · split at h
          · split at h
            · injection h with h
              exact h ▸ hfold _ _ _ hnd
            · injection h with h
              exact h ▸ hnd
          · injection h with h
            exact h ▸ hfoldPlain _ _ _ hnd
        · split at h
          · injection h with h
            exact h ▸ allocate_U_nodup _ _ _ hnd
          · exact Option.noConfusion h

theorem edictPhase_nodup {ex : DuneId → Bool} {tid : DuneId}
    {edicts : Option (List Edict)} {s s' : EngineState}
    (h : edictPhase ex tid edicts s = some s')
    (hnd : (s.U.map Prod.fst).Nodup) : (s'.U.map Prod.fst).Nodup := by
  unfold edictPhase at h
  exact foldlM_option_preserves _ (fun st => (st.U.map Prod.fst).Nodup)
    (fun a b c hab => processOneEdict_nodup hab) _ s s' h hnd

/-! ### Pointer-selection lemmas -/

theorem firstIdxWhereAux_bound (p : PendingUtxo → Bool) :
    ∀ (l : List PendingUtxo) (n j : Nat),
      firstIdxWhereAux p n l = some j → n ≤ j ∧ j < n + l.length := by
  intro l
  induction l with
  | nil =>
    intro n j h
    exact Option.noConfusion h
  | cons u rest ih =>
    intro n j h
    simp only [firstIdxWhereAux] at h
    split at h
    · injection h with h
      subst h
      simp
    · obtain ⟨h1, h2⟩ := ih (n + 1) j h
      constructor
      · omega
      · simpa [Nat.add_comm, Nat.add_left_comm] using h2

theorem firstIdxWhere_lt {p : PendingUtxo → Bool} {pus : List PendingUtxo} {j : Nat}
    (h : firstIdxWhere p pus = some j) : j < pus.length := by
  have := (firstIdxWhereAux_bound p pus 0 j h).2
  omega

theorem pointerOutputIdx_lt {pointer : Option Nat} {pus : List PendingUtxo} {i : Nat}
    (h : pointerOutputIdx pointer pus = some i) : i < pus.length := by
  unfold pointerOutputIdx at h
  cases pointer with
  | none =>
    simp only [] at h
    split at h
    · next i0 heq =>
      injection h with h
      subst h
      exact firstIdxWhere_lt heq
    · exact firstIdxWhere_lt h
  | some p =>
    simp only [] at h
    by_cases hp : p = 0
    · rw [if_neg (by simp [hp])] at h
      split at h
      · next i0 heq =>
        injection h with h
        subst h
        exact firstIdxWhere_lt heq
      · exact firstIdxWhere_lt h
    · rw [if_pos hp] at h
      by_cases hlt : p < pus.length
      · rw [if_pos hlt] at h
        simp only [] at h
        injection h with h
        subst h
        exact hlt
      · rw [if_neg hlt] at h
        split at h
        · next i0 heq =>
          injection h with h
          subst h
          exact firstIdxWhere_lt heq
        · exact firstIdxWhere_lt h

theorem balAt_congr {s1 s2 : EngineState} {i : Nat}
    (h : s1.pendingUtxos[i]? = s2.pendingUtxos[i]?) (k : DuneId) :
    balAt s1 i k = balAt s2 i k := by
  unfold balAt
  rw [h]

/-- Behaviour of the even-split forEach: starting at position j with the
invariant amount of dune k still unallocated, the output listed at position
m receives quotient-plus-one while j + m is below the remainder and the
quotient afterwards; outputs not listed are untouched. -/
theorem splitFoldAux (k : DuneId) (q r : Amt) (n : Nat) (hq : 0 ≤ q) (hr : 0 ≤ r) :
    ∀ (l : List Nat) (j : Nat) (s : EngineState),
      (∀ i ∈ l, i < s.pendingUtxos.length) →
      l.Nodup →
      j + l.length = n →
      getAssoc? s.U k = some (q * ((n : Int) - (j : Int)) + (r - min (j : Int) r)) →
      (∀ m i, l[m]? = some i →
          balAt ((l.enumFrom j).foldl
              (fun st ji => allocate st ji.2 k
                (if (ji.1 : Int) < r then q + 1 else q)) s) i k
            = balAt s i k + (q + if ((j + m : Nat) : Int) < r then 1 else 0))
        ∧ (∀ i', i' ∉ l →
            ((l.enumFrom j).foldl
              (fun st ji => allocate st ji.2 k
                (if (ji.1 : Int) < r then q + 1 else q)) s).pendingUtxos[i']?
              = s.pendingUtxos[i']?)
        ∧ ((l.enumFrom j).foldl
              (fun st ji => allocate st ji.2 k
                (if (ji.1 : Int) < r then q + 1 else q)) s).pendingUtxos.length
            = s.pendingUtxos.length := by
  intro l
  induction l with
  | nil =>
    intro j s hbound hnd hlen hU
    refine ⟨fun m i hm => ?_, fun i' _ => rfl, rfl⟩
    simp at hm
  | cons i0 l ih =>
    intro j s hbound hnd hlen hU
    have hi0 : i0 < s.pendingUtxos.length := hbound i0 (by simp)
    obtain ⟨ut, hut⟩ : ∃ ut, s.pendingUtxos[i0]? = some ut :=
      ⟨s.pendingUtxos[i0], List.getElem?_eq_getElem hi0⟩
    have h1n : (1 : Int) ≤ (n : Int) - (j : Int) := by
      have : j + (l.length + 1) = n := by simpa using hlen
      omega
    have hmul : q ≤ q * ((n : Int) - (j : Int)) := le_mul_of_one_le_right hq h1n
    have hstep : q * ((n : Int) - (j : Int))
        = q * ((n : Int) - ((j : Int) + 1)) + q := by ring
    obtain ⟨hi0notin, hndl⟩ := List.nodup_cons.mp hnd
    set a : Amt := if ((j : Nat) : Int) < r then q + 1 else q with ha
    have hge : a ≤ q * ((n : Int) - (j : Int)) + (r - min ((j : Nat) : Int) r) := by
      by_cases hjr : ((j : Nat) : Int) < r
      · rw [ha, if_pos hjr, min_eq_left (le_of_lt hjr)]
        linarith
      · rw [ha, if_neg hjr, min_eq_right (le_of_not_lt hjr)]
        linarith
    have h0inv : a = 0 →
        q * ((n : Int) - (j : Int)) + (r - min ((j : Nat) : Int) r) = 0 := by
      intro h0a
      by_cases hjr : ((j : Nat) : Int) < r
      · rw [ha, if_pos hjr] at h0a
        linarith
      · rw [ha, if_neg hjr] at h0a
        have hz : q * ((n : Int) - (j : Int)) = 0 := by rw [h0a]; ring
        rw [min_eq_right (le_of_not_lt hjr), hz]
        ring
    have hgive : allocGive s k a = a := by
      unfold allocGive
      rw [hU]
      simp only []
      by_cases hcond :
          q * ((n : Int) - (j : Int)) + (r - min ((j : Nat) : Int) r) < a ∨ a = 0
      · rw [if_pos hcond]
        rcases hcond with hlt | h0a
        · linarith
        · rw [h0inv h0a, h0a]
      · rw [if_neg hcond]
    have hU1 : getAssoc? (allocate s i0 k a).U k
        = some (q * ((n : Int) - ((j + 1 : Nat) : Int))
            + (r - min ((j + 1 : Nat) : Int) r)) := by
      rw [allocate_U hut, hU, hgive, Option.getD_some, getAssoc?_setAssoc_self]
      congr 1
      by_cases hjr : ((j : Nat) : Int) < r
      · have hminj : min ((j : Nat) : Int) r = ((j : Nat) : Int) :=
          min_eq_left (le_of_lt hjr)
        have hminj1 : min ((j + 1 : Nat) : Int) r = ((j + 1 : Nat) : Int) :=
          min_eq_left (by push_cast; linarith)
        rw [ha, if_pos hjr, hminj, hminj1]
        push_cast
        ring
      · have hminr : min ((j : Nat) : Int) r = r := min_eq_right (le_of_not_lt hjr)
        have hminr1 : min ((j + 1 : Nat) : Int) r = r :=
          min_eq_right (by push_cast; linarith [le_of_not_lt hjr])
        rw [ha, if_neg hjr, hminr, hminr1]
        push_cast
        ring
    obtain ⟨ihbal, ihne, ihlen⟩ :=
      ih (j + 1) (allocate s i0 k a)
        (fun i hi => by rw [allocate_length]; exact hbound i (by simp [hi]))
        hndl
        (by simpa [Nat.add_assoc, Nat.add_comm, Nat.add_left_comm] using hlen)
        hU1
    rw [List.enumFrom_cons, List.foldl_cons]
    refine ⟨?_, ?_, ?_⟩
    · intro m i hm
      match m, hm with
      | 0, hm =>
        rw [List.getElem?_cons_zero] at hm
        injection hm with hm
        subst hm
        rw [balAt_congr (ihne i0 hi0notin) k, allocate_balAt_self hut, hgive]
        have : ((j + 0 : Nat) : Int) = ((j : Nat) : Int) := by norm_num
        rw [this, ha]
        by_cases hjr : ((j : Nat) : Int) < r
        · rw [if_pos hjr, if_pos hjr]
        · rw [if_neg hjr, if_neg hjr]
          ring
      | m + 1, hm =>
        rw [List.getElem?_cons_succ] at hm
        have himem : i ∈ l := List.getElem?_mem hm
        have hne0 : i ≠ i0 := fun he => hi0notin (he ▸ himem)
        rw [ihbal m i hm, balAt_congr (allocate_getElem?_ne hne0 k a) k]
        have : ((j + 1 + m : Nat) : Int) = ((j + (m + 1) : Nat) : Int) := by
          push_cast
          ring
        rw [this]
    · intro i' hi'
      have hne0 : i' ≠ i0 := fun he => hi' (by simp [he])
      have hnotl : i' ∉ l := fun hm => hi' (by simp [hm])
      rw [ihne i' hnotl, allocate_getElem?_ne hne0]
    · rw [ihlen, allocate_length]

theorem pointerOutputIdx_nil (pointer : Option Nat) :
    pointerOutputIdx pointer [] = none := by
  unfold pointerOutputIdx
  cases pointer with
  | none => rfl
  | some p =>
    by_cases hp : p = 0
    · subst hp
      rfl
    · simp [hp, firstNonOpIdx, firstOpReturnIdx, firstIdxWhere, firstIdxWhereAux]

theorem nonOpReturnIdxs_lt {pus : List PendingUtxo} {i : Nat}
    (h : i ∈ nonOpReturnIdxs pus) : i < pus.length := by
  unfold nonOpReturnIdxs at h
  exact List.mem_range.mp (List.mem_of_mem_filter h)

theorem nonOpReturnIdxs_nodup (pus : List PendingUtxo) :
    (nonOpReturnIdxs pus).Nodup :=
  (List.nodup_range _).filter _

theorem isMintOpen_cap_refuses {block txIndex : Int} {d : DuneRow} {c : Amt}
    (hcap : d.mint_cap = some c) (hc : c ≠ 0) (hover : d.mints + 1 > c) :
    isMintOpen block txIndex d true = false := by
  unfold isMintOpen
  split
  · rfl
  · split
    · rfl
    · have hcr : capRefused d.mint_cap (d.mints + 1) = true := by
        rw [hcap]
        unfold capRefused
        simp only []
        rw [if_neg hc]
        simpa using hover
      simp [hcr]

theorem isMintOpen_cap_transparent {block txIndex : Int} {d : DuneRow} {c : Amt}
    (hcap : d.mint_cap = some c) (hc : c ≠ 0) (hle : d.mints + 1 ≤ c) :
    isMintOpen block txIndex d true
      = isMintOpen block txIndex { d with mint_cap := none } true := by
  unfold isMintOpen
  simp only []
  by_cases hu : d.unmintable = true
  · rw [if_pos hu, if_pos hu]
  · rw [if_neg hu, if_neg hu]
    by_cases hcb :
        block = (d.dune_protocol_id.1 : Int) ∧ (d.dune_protocol_id.2 : Int) = txIndex
    · rw [if_pos hcb, if_pos hcb]
    · rw [if_neg hcb, if_neg hcb]
      have hcr : capRefused d.mint_cap (d.mints + 1) = false := by
        rw [hcap]
        unfold capRefused
        simp only []
        rw [if_neg hc]
        simpa using not_lt.mpr hle
      have hnone : ∀ t : Amt, capRefused (none : Option Amt) t = false := fun _ => rfl
      simp [hcr, hnone]
      rfl

theorem findDune_updateDuneMints_mem :
    ∀ (l : List DuneRow) (id : DuneId) (dm : DuneRow) (m : Amt) (d' : DuneRow),
      l.find? (fun d => d.dune_protocol_id == id) = some dm →
      d' ∈ updateDuneMints l id m →
      d' ∈ l ∨ d' = { dm with mints := m } := by
  intro l
  induction l with
  | nil =>
    intro id dm m d' hfind hmem
    exact Option.noConfusion hfind
  | cons d0 rest ih =>
    intro id dm m d' hfind hmem
    rw [List.find?_cons] at hfind
    unfold updateDuneMints at hmem
    by_cases hd0 : d0.dune_protocol_id = id
    · rw [show (d0.dune_protocol_id == id) = true from beq_iff_eq.mpr hd0] at hfind
      simp only [] at hfind
      injection hfind with hfind
      rw [if_pos hd0] at hmem
      rcases List.mem_cons.mp hmem with hm | hm
      · right
        rw [hm, hfind]
      · left
        exact List.mem_cons_of_mem _ hm
    · rw [show (d0.dune_protocol_id == id) = false from beq_eq_false_iff_ne.mpr hd0]
        at hfind
      simp only [] at hfind
      rw [if_neg hd0] at hmem
      rcases List.mem_cons.mp hmem with hm | hm
      · left
        exact hm ▸ List.mem_cons_self _ _
      · rcases ih id dm m d' hfind hm with hm' | hm'
        · exact Or.inl (List.mem_cons_of_mem _ hm')
        · exact Or.inr hm'

/-- Cap safety of one mint step, phrased over all rows of the Dune table. -/
theorem processMint_cap_preserved (U : List (DuneId × Amt)) (tx : TxCtx)
    (stor : Storage) (out : List (DuneId × Amt) × Storage)
    (h : processMint U tx stor = some out)
    (hpre : ∀ d ∈ stor.dunes, ∀ c, d.mint_cap = some c → c ≠ 0 → d.mints ≤ c) :
    ∀ d' ∈ out.2.dunes, ∀ c, d'.mint_cap = some c → c ≠ 0 → d'.mints ≤ c := by
  unfold processMint at h
  split at h
  · injection h with h
    rw [← h]
    exact hpre
  · next mintId hmint =>
    split at h
    · injection h with h
      rw [← h]
      exact hpre
    · next duneToMint hfind =>
      split at h
      · injection h with h
        rw [← h]
        exact hpre
      · next hpricemet =>
        split at h
        · next hopen =>
          split at h
          · injection h with h
            rw [← h]
            exact hpre
          · simp only [] at h
            split at h
            · exact Option.noConfusion h
            · next mintAmount hma =>
              split at h
              · injection h with h
                rw [← h]
                exact hpre
              · injection h with h
                rw [← h]
                intro d' hd' c hcap hc
                simp only [] at hd'
                have hfind' : stor.dunes.find?
                    (fun d => d.dune_protocol_id == mintId) = some duneToMint := hfind
                have hid : duneToMint.dune_protocol_id = mintId :=
                  beq_iff_eq.mp (by simpa using List.find?_some hfind')
                rw [hid] at hd'
                rcases findDune_updateDuneMints_mem stor.dunes mintId duneToMint
                    (duneToMint.mints + 1) d' hfind' hd' with hm | hm
                · exact hpre d' hm c hcap hc
                · subst hm
                  simp only [] at hcap ⊢
                  by_contra hgt
                  have : isMintOpen (tx.block : Int) (tx.txIndex : Int)
                      duneToMint true = false :=
                    isMintOpen_cap_refuses hcap hc (not_le.mp hgt)
                  rw [this] at hopen
                  exact Bool.noConfusion hopen
        · injection h with h
          rw [← h]
          exact hpre

/-! ### Claim theorems -/

theorem signedHalfRoundtrip (x : Nat) (hx : x < 2 ^ 64) :
    (if (if x > 0x7fffffffffffffff then
            (x : Int) - (((0xffffffffffffffff : Nat) : Int) + 1)
          else (x : Int)) < 0 then
       (if x > 0x7fffffffffffffff then
           (x : Int) - (((0xffffffffffffffff : Nat) : Int) + 1)
         else (x : Int)) + ((0xffffffffffffffff : Int) + 1)
     else
       (if x > 0x7fffffffffffffff then
           (x : Int) - (((0xffffffffffffffff : Nat) : Int) + 1)
         else (x : Int))).toNat = x := by
  split_ifs <;> push_cast <;> omega

/-- C9: for every unsigned 128-bit integer amount, splitting it into the two
signed 64-bit halves (balance_0 low, balance_1 high) and recombining them is
the identity: convertPartsToAmount of convertAmountToParts gives the amount
back. -/
theorem c9_u128_split_roundtrip (amount : Nat) (h : amount < 2 ^ 128) :
    convertPartsToAmount (convertAmountToParts amount).1
      (convertAmountToParts amount).2 = amount := by
  have hmask : (0xffffffffffffffff : Nat) = 2 ^ 64 - 1 := by norm_num
  have hlow : amount &&& 0xffffffffffffffff = amount % 2 ^ 64 := by
    rw [hmask, Nat.and_pow_two_sub_one_eq_mod]
  have hdiv_lt : amount / 2 ^ 64 < 2 ^ 64 := by
    apply Nat.div_lt_of_lt_mul
    calc amount < 2 ^ 128 := h
    _ = 2 ^ 64 * 2 ^ 64 := by norm_num
  have hup : (amount >>> 64) &&& 0xffffffffffffffff = amount / 2 ^ 64 := by
    rw [Nat.shiftRight_eq_div_pow, hmask, Nat.and_pow_two_sub_one_eq_mod,
      Nat.mod_eq_of_lt hdiv_lt]
  have hmod_lt : amount % 2 ^ 64 < 2 ^ 64 := Nat.mod_lt _ (by norm_num)
  have hrecomb : (amount / 2 ^ 64) <<< 64 ||| amount % 2 ^ 64 = amount := by
    rw [Nat.shiftLeft_eq, Nat.mul_comm, ← Nat.mul_add_lt_is_or hmod_lt,
      Nat.div_add_mod]
  unfold convertAmountToParts convertPartsToAmount
  simp only [hlow, hup]
  rw [signedHalfRoundtrip _ hdiv_lt, signedHalfRoundtrip _ hmod_lt]
  exact hrecomb

/-- Witness for C9 at the concrete amount 2 ^ 127 + 12345: the bound holds
and the split-recombine roundtrip returns the amount. -/
theorem c9_witness :
    (2 ^ 127 + 12345 : Nat) < 2 ^ 128
      ∧ convertPartsToAmount (convertAmountToParts (2 ^ 127 + 12345)).1
          (convertAmountToParts (2 ^ 127 + 12345)).2 = 2 ^ 127 + 12345 :=
  ⟨by norm_num, c9_u128_split_roundtrip (2 ^ 127 + 12345) (by norm_num)⟩

/-- C3: the decoder classifies a dunestone as a cenotaph already when an
edict output equals the vout count, because badOutput compares with
e.output > voutLen - 1.  The edict below has output 3 in a transaction with
3 vouts and id 1:1, so by the claim (output does not exceed vout_count, id
block is nonzero) it should be accepted, yet the check flags it. -/
theorem c3_decoder_flags_output_eq_voutcount :
    decipherEdictChecksCenotaph [{ id := (1, 1), amount := 5, output := 3 }] 3 = true
      ∧ ¬ (3 : Nat) > 3
      ∧ (1 : Nat) ≠ 0 := by
  decide

/-- C6: processMint returns early on a cenotaph before touching storage, so
a cenotaph mint of the open dune c6Dune leaves mints at 0 and storage
unchanged, while the identical mint without the cenotaph flag increments
mints to 1; the claim says the cenotaph mint should also increment. -/
theorem c6_cenotaph_mint_skips_increment :
    isMintOpen (c6Tx.block : Int) (c6Tx.txIndex : Int) c6Dune true = true
      ∧ c6Tx.dunestone.cenotaph = true
      ∧ processMint [] c6Tx { dunes := [c6Dune], events := [] }
          = some ([], { dunes := [c6Dune], events := [] })
      ∧ (processMint [] c6TxNC { dunes := [c6Dune], events := [] }).map
            (fun out => out.2.dunes.map (fun d => d.mints))
          = some [1] := by
  decide

/-- C7: processEtching never consults minimumLengthAtHeight: the etching
c7Tx carries the 2-character name AB at height 840000, where the minimum
length is 13, yet the Dune row is created and the premine of 1000 units is
credited to the unallocated bag instead of the etching being rejected. -/
theorem c7_minimum_length_unenforced :
    minimumLengthAtHeight (c7Tx.block : Int) = 13
      ∧ (c7Tx.dunestone.etching.map fun e => e.dune.length) = some 2
      ∧ (processEtching [] c7Tx { dunes := [], events := [] } false).1
          = [((840000, 1), 1000)]
      ∧ (processEtching [] c7Tx { dunes := [], events := [] } false).2.dunes.map
            (fun d => d.name) = ["AB"] := by
  decide

/-- Counterexample to C1 as stated: the dune c1ZeroCapDune has mint_cap set
to 0 and mints 0, so mints + 1 = 1 exceeds the cap, yet isMintOpen with
offset still returns true, because a BigInt cap of 0 is falsy in JS and the
if (mint_cap) guard skips the comparison entirely. -/
theorem c1_counterexample_zero_cap :
    c1ZeroCapDune.mint_cap = some 0
      ∧ c1ZeroCapDune.mints + 1 > 0
      ∧ isMintOpen 840001 0 c1ZeroCapDune true = true := by
  decide

/-- C1 (amended: the cap is enforced only when it is nonzero): for every
dune with a nonzero cap, isMintOpen with offset refuses as soon as
mints + 1 exceeds the cap, behaves exactly like the capless dune at or
below the cap (so a mint landing on the cap is still allowed), and one
processMint step preserves mints ≤ cap across every row of the Dune
table. -/
theorem c1_cap_enforced_when_nonzero :
    (∀ (block txIndex : Int) (d : DuneRow) (c : Amt),
        d.mint_cap = some c → c ≠ 0 → d.mints + 1 > c →
        isMintOpen block txIndex d true = false)
      ∧ (∀ (block txIndex : Int) (d : DuneRow) (c : Amt),
          d.mint_cap = some c → c ≠ 0 → d.mints + 1 ≤ c →
          isMintOpen block txIndex d true
            = isMintOpen block txIndex { d with mint_cap := none } true)
      ∧ (∀ (U : List (DuneId × Amt)) (tx : TxCtx) (stor : Storage)
            (out : List (DuneId × Amt) × Storage),
          processMint U tx stor = some out →
          (∀ d ∈ stor.dunes, ∀ c, d.mint_cap = some c → c ≠ 0 → d.mints ≤ c) →
          ∀ d' ∈ out.2.dunes, ∀ c, d'.mint_cap = some c → c ≠ 0 → d'.mints ≤ c) :=
  ⟨fun _ _ _ _ hcap hc hover => isMintOpen_cap_refuses hcap hc hover,
   fun _ _ _ _ hcap hc hle => isMintOpen_cap_transparent hcap hc hle,
   fun U tx stor out h hpre => processMint_cap_preserved U tx stor out h hpre⟩

/-- Witness for C1 on the concrete dune c1WitDune, capped at 5 with 5 mints
already recorded: the next offset mint is refused. -/
theorem c1_witness :
    c1WitDune.mint_cap = some 5
      ∧ (5 : Amt) ≠ 0
      ∧ c1WitDune.mints + 1 > 5
      ∧ isMintOpen 840001 0 c1WitDune true = false :=
  ⟨rfl, by decide, by decide,
   c1_cap_enforced_when_nonzero.1 840001 0 c1WitDune 5 rfl (by decide) (by decide)⟩

/-- Counterexample to C8 as stated: in c8S0 the pointer 0 is set and valid
(the state has 2 outputs), so by the claim the residual 7 units should land
on output 0.  Because a pointer of 0 is falsy in JS, the sweep instead
targets the first non-OP_RETURN output, index 1. -/
theorem c8_counterexample_pointer_zero :
    (0 : Nat) < c8S0.pendingUtxos.length
      ∧ (processEdicts (fun _ => false) (1, 1) false none (some 0) c8S0).map
            (fun s => (balAt s 0 (840000, 5), balAt s 1 (840000, 5)))
          = some (0, 7) := by
  decide

/-- C8 (amended: a pointer of 0 is falsy and is treated as unset): the sweep
target is the pointer output when the pointer is nonzero and in range; a
nonzero pointer that is out of range falls through the nullish coalescing
and behaves like an absent one, as does a zero pointer; an absent pointer
falls back to the first non-OP_RETURN output and then to the first
OP_RETURN output; and for every non-cenotaph transaction processEdicts
errors out (none) when the edict phase leaves no output at all, and
otherwise sweeps the residual bag to the single selected output. -/
theorem c8_pointer_sweep_order :
    (∀ (p : Nat) (pus : List PendingUtxo), p ≠ 0 → p < pus.length →
        pointerOutputIdx (some p) pus = some p)
      ∧ (∀ (p : Nat) (pus : List PendingUtxo), p ≠ 0 → ¬ p < pus.length →
          pointerOutputIdx (some p) pus = pointerOutputIdx none pus)
      ∧ (∀ (pus : List PendingUtxo),
          pointerOutputIdx (some 0) pus = pointerOutputIdx none pus)
      ∧ (∀ (pus : List PendingUtxo),
          pointerOutputIdx none pus
            = match firstNonOpIdx pus with
              | some i => some i
              | none => firstOpReturnIdx pus)
      ∧ (∀ (ex : DuneId → Bool) (tid : DuneId) (edicts : Option (List Edict))
            (pointer : Option Nat) (s s1 : EngineState),
          edictPhase ex tid edicts s = some s1 →
          (s1.pendingUtxos = [] →
              processEdicts ex tid false edicts pointer s = none)
            ∧ ∀ i, pointerOutputIdx pointer s1.pendingUtxos = some i →
                processEdicts ex tid false edicts pointer s
                  = some (sweepTo s1 i)) := by
  refine ⟨?_, ?_, ?_, ?_, ?_⟩
  · intro p pus hp hlt
    unfold pointerOutputIdx
    simp only []
    rw [if_pos hp, if_pos hlt]
  · intro p pus hp hge
    unfold pointerOutputIdx
    simp only []
    rw [if_pos hp, if_neg hge]
  · intro pus
    unfold pointerOutputIdx
    simp only []
    rw [if_neg (by simp)]
  · intro pus
    rfl
  · intro ex tid edicts pointer s s1 hphase
    constructor
    · intro hnil
      unfold processEdicts
      rw [if_neg (by simp), hphase]
      simp only []
      rw [hnil, pointerOutputIdx_nil]
    · intro i hpi
      unfold processEdicts
      rw [if_neg (by simp), hphase]
      simp only []
      rw [hpi]

/-- Witness for C8 on the concrete outputs c8WPus: the nonzero, in-range
pointer 1 selects output 1. -/
theorem c8_witness :
    (1 : Nat) ≠ 0
      ∧ 1 < c8WPus.length
      ∧ pointerOutputIdx (some 1) c8WPus = some 1 :=
  ⟨by decide, by decide,
   c8_pointer_sweep_order.1 1 c8WPus (by decide) (by decide)⟩

/-- C2: for every non-cenotaph transaction (with distinct bag keys, as the
JS object U guarantees), when processEdicts succeeds the pointer sweep at
its end has emptied the unallocated bag: every dune id maps to zero. -/
theorem c2_pointer_sweep_empties_bag
    (ex : DuneId → Bool) (tid : DuneId) (edicts : Option (List Edict))
    (pointer : Option Nat) (s0 s1 : EngineState)
    (hnd : (s0.U.map Prod.fst).Nodup)
    (h : processEdicts ex tid false edicts pointer s0 = some s1) :
    ∀ kv ∈ s1.U, kv.2 = 0 := by
  unfold processEdicts at h
  rw [if_neg (by simp)] at h
  split at h
  · exact Option.noConfusion h
  · next se hse =>
    split at h
    · next i hi =>
      injection h with h
      subst h
      have hnd1 := edictPhase_nodup hse hnd
      have hlt := pointerOutputIdx_lt hi
      obtain ⟨hU, _, _⟩ := sweepTo_spec hlt hnd1
      intro kv hkv
      rw [hU] at hkv
      obtain ⟨kv0, _, hkveq⟩ := List.mem_map.mp hkv
      rw [← hkveq]
    · exact Option.noConfusion h

/-- Witness for C2 on the concrete run from c2S0 (7 unallocated units, an
OP_RETURN and an ordinary output, no edicts, no pointer), which lands in
c2S1: the bag of c2S1 holds only zeroes. -/
theorem c2_witness :
    (c2S0.U.map Prod.fst).Nodup
      ∧ processEdicts (fun _ => false) (1, 1) false none none c2S0 = some c2S1
      ∧ ∀ kv ∈ c2S1.U, kv.2 = 0 :=
  ⟨by decide, by decide,
   c2_pointer_sweep_empties_bag (fun _ => false) (1, 1) none none c2S0 c2S1
     (by decide) (by decide)⟩

/-- C4: the allocation primitive with have = U[dune_id] present and the
target output in range transfers give = have when amt = 0 or have < amt and
give = amt otherwise: give is subtracted from the bag entry, added to the
balance of the target output, and accumulated into the transfers entry
keyed burn when the target output has address id 2 and by the decimal
address id otherwise. -/
theorem c4_allocate_spec {s : EngineState} {i : Nat} {ut : PendingUtxo}
    {k : DuneId} (a : Amt) {hv : Amt}
    (hut : s.pendingUtxos[i]? = some ut)
    (hU : getAssoc? s.U k = some hv) :
    (allocate s i k a).U
        = setAssoc s.U k (hv - (if a = 0 ∨ hv < a then hv else a))
      ∧ balAt (allocate s i k a) i k
          = balAt s i k + (if a = 0 ∨ hv < a then hv else a)
      ∧ transfersTot (allocate s i k a)
            (if ut.address_id = 2 then "burn" else toString ut.address_id) k
          = transfersTot s
              (if ut.address_id = 2 then "burn" else toString ut.address_id) k
            + (if a = 0 ∨ hv < a then hv else a) := by
  have hgive : allocGive s k a = if a = 0 ∨ hv < a then hv else a := by
    unfold allocGive
    rw [hU]
    simp only []
    by_cases hc : a = 0 ∨ hv < a
    · rw [if_pos (Or.comm.mp hc), if_pos hc]
    · rw [if_neg (fun h => hc (Or.comm.mp h)), if_neg hc]
  refine ⟨?_, ?_, ?_⟩
  · rw [allocate_U hut, hU, Option.getD_some, hgive]
  · rw [allocate_balAt_self hut, hgive]
  · rw [allocate_transfersTot hut, hgive]

/-- Witness for C4 on the concrete state c4S0 (7 unallocated units, one
OP_RETURN output) with amt 3: give is 3 and it lands on the burn key. -/
theorem c4_witness :
    c4S0.pendingUtxos[0]? = some ⟨2, []⟩
      ∧ getAssoc? c4S0.U (840000, 5) = some 7
      ∧ transfersTot (allocate c4S0 0 (840000, 5) 3)
            (if (2 : Nat) = 2 then "burn" else toString (2 : Nat)) (840000, 5)
          = transfersTot c4S0
              (if (2 : Nat) = 2 then "burn" else toString (2 : Nat)) (840000, 5)
            + (if (3 : Amt) = 0 ∨ (7 : Amt) < 3 then 7 else 3) := by
  have h1 : c4S0.pendingUtxos[0]? = some ⟨2, []⟩ := by decide
  have h2 : getAssoc? c4S0.U (840000, 5) = some 7 := by decide
  exact ⟨h1, h2, (c4_allocate_spec 3 h1 h2).2.2⟩

/-- C5: for every non-cenotaph edict of an existing dune with amount = 0
and output equal to the vout count, processOneEdict divides the unallocated
balance u evenly across the n non-OP_RETURN outputs with truncating
division: the output listed at position m receives u.tdiv n plus one extra
unit exactly when m < u.tmod n, i.e. the first remainder-many outputs get
the extra unit. -/
theorem c5_edict_even_split (ex : DuneId → Bool) (s : EngineState) (e : Edict)
    (u : Amt)
    (hex : ex e.id = true)
    (hU : getAssoc? s.U e.id = some u)
    (hu : 0 < u)
    (hout : e.output = s.pendingUtxos.length)
    (hamt : e.amount = 0)
    (hn : 0 < (nonOpReturnIdxs s.pendingUtxos).length) :
    ∃ s', processOneEdict ex s e = some s'
      ∧ ∀ (m i : Nat), (nonOpReturnIdxs s.pendingUtxos)[m]? = some i →
          balAt s' i e.id
            = balAt s i e.id
              + (u.tdiv ((nonOpReturnIdxs s.pendingUtxos).length : Int)
                 + if (m : Int) < u.tmod ((nonOpReturnIdxs s.pendingUtxos).length : Int)
                   then 1 else 0) := by
  have hn' : ((nonOpReturnIdxs s.pendingUtxos).length : Int) > 0 := by exact_mod_cast hn
  have hq : 0 ≤ u.tdiv ((nonOpReturnIdxs s.pendingUtxos).length : Int) :=
    Int.tdiv_nonneg (le_of_lt hu) (le_of_lt hn')
  have hr : 0 ≤ u.tmod ((nonOpReturnIdxs s.pendingUtxos).length : Int) :=
    Int.tmod_nonneg _ (le_of_lt hu)
  have hU' : getAssoc? s.U e.id
      = some (u.tdiv ((nonOpReturnIdxs s.pendingUtxos).length : Int)
          * (((nonOpReturnIdxs s.pendingUtxos).length : Int) - ((0 : Nat) : Int))
          + (u.tmod ((nonOpReturnIdxs s.pendingUtxos).length : Int)
             - min ((0 : Nat) : Int)
                 (u.tmod ((nonOpReturnIdxs s.pendingUtxos).length : Int)))) := by
    rw [hU]
    congr 1
    rw [Nat.cast_zero, sub_zero, min_eq_left hr, sub_zero, mul_comm]
    exact (Int.tdiv_add_tmod u _).symm
  obtain ⟨hbal, -, -⟩ :=
    splitFoldAux e.id (u.tdiv ((nonOpReturnIdxs s.pendingUtxos).length : Int))
      (u.tmod ((nonOpReturnIdxs s.pendingUtxos).length : Int))
      (nonOpReturnIdxs s.pendingUtxos).length hq hr
      (nonOpReturnIdxs s.pendingUtxos) 0 s
      (fun i hi => nonOpReturnIdxs_lt hi)
      (nonOpReturnIdxs_nodup s.pendingUtxos)
      (Nat.zero_add _)
      hU'
  refine ⟨((nonOpReturnIdxs s.pendingUtxos).enumFrom 0).foldl
      (fun st ji => allocate st ji.2 e.id
        (if (ji.1 : Int) < u.tmod ((nonOpReturnIdxs s.pendingUtxos).length : Int)
         then u.tdiv ((nonOpReturnIdxs s.pendingUtxos).length : Int) + 1
         else u.tdiv ((nonOpReturnIdxs s.pendingUtxos).length : Int))) s, ?_, ?_⟩
  · unfold processOneEdict
    rw [if_neg (by simp [hex]), hU]
    simp only []
    rw [if_neg hu.ne', if_pos hout]
    rw [if_pos hamt]
    rw [if_pos hn']
    rfl
  · intro m i hm
    have := hbal m i hm
    simpa using this

/-- Witness for C5 on the concrete state c5S0 (11 unallocated units, two
ordinary outputs, one OP_RETURN) and the split edict c5Edict. -/
theorem c5_witness :
    (fun _ => true : DuneId → Bool) c5Edict.id = true
      ∧ getAssoc? c5S0.U c5Edict.id = some 11
      ∧ (0 : Amt) < 11
      ∧ c5Edict.output = c5S0.pendingUtxos.length
      ∧ c5Edict.amount = 0
      ∧ 0 < (nonOpReturnIdxs c5S0.pendingUtxos).length
      ∧ ∃ s', processOneEdict (fun _ => true) c5S0 c5Edict = some s'
          ∧ ∀ (m i : Nat), (nonOpReturnIdxs c5S0.pendingUtxos)[m]? = some i →
              balAt s' i c5Edict.id
                = balAt c5S0 i c5Edict.id
                  + ((11 : Amt).tdiv ((nonOpReturnIdxs c5S0.pendingUtxos).length : Int)
                     + if (m : Int)
                         < (11 : Amt).tmod ((nonOpReturnIdxs c5S0.pendingUtxos).length : Int)
                       then 1 else 0) :=
  ⟨rfl, by decide, by decide, by decide, by decide, by decide,
   c5_edict_even_split (fun _ => true) c5S0 c5Edict 11 rfl (by decide) (by decide)
     (by decide) (by decide) (by decide)⟩

/-- C10: a successful mint of a flex-mode dune (price_amount set and
nonzero) credits the unallocated bag with the truncated quotient of the
sats paid to price_pay_to by the unit price, while the MINT event it emits
records the stored mint_amount column as its amount, so the two can
differ. -/
theorem c10_flex_mint_event_amount
    (U : List (DuneId × Amt)) (tx : TxCtx) (stor : Storage) (d : DuneRow)
    (mid : DuneId) (payTo : String) (pa : Amt)
    (hmint : tx.dunestone.mint = some mid)
    (hfind : findDune stor mid = some d)
    (hpayto : d.price_pay_to = some payTo)
    (hpa : d.price_amount = some pa)
    (hpa0 : ¬ pa = 0)
    (hprice : isPriceTermsMet d tx = true)
    (hopen : isMintOpen (tx.block : Int) (tx.txIndex : Int) d true = true)
    (hceno : tx.dunestone.cenotaph = false)
    (hpos : 0 < (totalSatsTo tx.vout payTo).tdiv pa) :
    processMint U tx stor
      = some (updateUnallocated U d.dune_protocol_id
            ((totalSatsTo tx.vout payTo).tdiv pa),
          { dunes := updateDuneMints stor.dunes d.dune_protocol_id (d.mints + 1),
            events :=
              { type := 1, block := (tx.block : Int),
                dune_id := d.dune_protocol_id, amount := d.mint_amount,
                from_address_id := tx.senderId, to_address_id := 2 }
                :: stor.events }) := by
  unfold processMint
  rw [hmint]
  simp only []
  rw [hfind]
  simp only []
  rw [if_neg (by simp [hprice]), if_pos hopen, if_neg (by simp [hceno])]
  rw [hpayto, hpa]
  rw [if_pos (show (some pa).isSome = true from rfl)]
  simp only []
  rw [if_neg hpa0]
  simp only []
  rw [if_neg (not_le.mpr hpos)]

/-- Witness for C10 on the concrete flex dune c10Dune (price 1000 sats paid
to A, stored mint_amount 0) and the mint c10Tx paying 4500 sats to A: the
bag is credited with 4 units while the MINT event records amount 0. -/
theorem c10_witness :
    c10Tx.dunestone.mint = some (840000, 5)
      ∧ findDune c10Stor (840000, 5) = some c10Dune
      ∧ c10Dune.price_pay_to = some "A"
      ∧ c10Dune.price_amount = some 1000
      ∧ isPriceTermsMet c10Dune c10Tx = true
      ∧ isMintOpen (c10Tx.block : Int) (c10Tx.txIndex : Int) c10Dune true = true
      ∧ (totalSatsTo c10Tx.vout "A").tdiv 1000 = 4
      ∧ c10Dune.mint_amount = some 0
      ∧ processMint [] c10Tx c10Stor
          = some ([((840000, 5), 4)],
              { dunes := [{ c10Dune with mints := 1 }],
                events := [{ type := 1, block := 840001, dune_id := (840000, 5),
                             amount := some 0, from_address_id := 7,
                             to_address_id := 2 }] }) := by
  refine ⟨rfl, by decide, rfl, rfl, by decide, by decide, by decide, rfl, ?_⟩
  have h := c10_flex_mint_event_amount [] c10Tx c10Stor c10Dune (840000, 5) "A" 1000
    rfl (by decide) rfl rfl (by decide) (by decide) (by decide) rfl (by decide)
  exact h.trans (by decide)

end Nana
